import Mathlib

/-!
Verification development for the maritime route planner
(worldcleanDev/maritime-route): a shallow embedding of
src/navigation.py, src/polygon_checker.py and src/checker.py.

Coordinates and distances computed by the Python code with floats are
idealized as rationals (ℚ); the transcendental haversine distance is
embedded over ℝ.  The shapely/rtree geometric primitives, the polygon
data files and the Google geocoding service are external to the
repository and are abstracted as oracle function fields / parameters;
every control-flow decision of the repository's own code is embedded
faithfully.  Python exceptions are modelled with `Except`.
-/

namespace Maritime

/-- Error kinds for Python exceptions raised by the repository code. -/
inductive Err where
  | runtimeError
  | indexError
  | valueError
  deriving DecidableEq, Repr

/-! ## Grid quantizer (src/navigation.py lines 25-78) -/

/-- A grid cell, `(grid_lat, grid_lon)`. -/
abbrev Cell := ℤ × ℤ

/-- Python's `round` (round-half-to-even, banker's rounding) on an exact
rational input, as used by `quantize_coordinate`. -/
def pyRound (q : ℚ) : ℤ :=
  if q - (⌊q⌋ : ℚ) < 1/2 then ⌊q⌋
  else if 1/2 < q - (⌊q⌋ : ℚ) then ⌊q⌋ + 1
  else if Even ⌊q⌋ then ⌊q⌋ else ⌊q⌋ + 1

/-- Embedding of `quantize_coordinate` (navigation.py lines 25-38):
`grid_size_degrees = grid_size_km / 111.0`, then round each coordinate. -/
def quantize_coordinate (lat lon grid_size_km : ℚ) : Cell :=
  let grid_size_degrees := grid_size_km / 111
  (pyRound (lat / grid_size_degrees), pyRound (lon / grid_size_degrees))

/-- Embedding of `dequantize_coordinate` (navigation.py lines 40-52). -/
def dequantize_coordinate (grid_lat grid_lon : ℤ) (grid_size_km : ℚ) : ℚ × ℚ :=
  let grid_size_degrees := grid_size_km / 111
  ((grid_lat : ℚ) * grid_size_degrees, (grid_lon : ℚ) * grid_size_degrees)

/-- Embedding of `get_neighbors` (navigation.py lines 54-78) with
`diagonal = True`, in the source's enumeration order
N, S, E, W, NE, NW, SE, SW. -/
def get_neighbors (grid_lat grid_lon : ℤ) : List Cell :=
  [(grid_lat + 1, grid_lon), (grid_lat - 1, grid_lon),
   (grid_lat, grid_lon + 1), (grid_lat, grid_lon - 1),
   (grid_lat + 1, grid_lon + 1), (grid_lat + 1, grid_lon - 1),
   (grid_lat - 1, grid_lon + 1), (grid_lat - 1, grid_lon - 1)]

/-- 8-adjacency of grid cells: `b` is one of the eight neighbors of `a`. -/
def Adj (a b : Cell) : Prop := b ∈ get_neighbors a.1 a.2

instance (a b : Cell) : Decidable (Adj a b) := by
  unfold Adj; infer_instance

/-! ## Geodesy (src/navigation.py lines 11-23) -/

open Real in
/-- Embedding of `haversine_distance` (navigation.py lines 11-23) over ℝ,
with `math.radians x = x * π / 180` and Earth radius `R = 6371`. -/
noncomputable def haversine_distance (lat1 lon1 lat2 lon2 : ℚ) : ℝ :=
  let R : ℝ := 6371
  let lat1_rad := (lat1 : ℝ) * π / 180
  let lat2_rad := (lat2 : ℝ) * π / 180
  let delta_lat := ((lat2 : ℝ) - (lat1 : ℝ)) * π / 180
  let delta_lon := ((lon2 : ℝ) - (lon1 : ℝ)) * π / 180
  let a := Real.sin (delta_lat / 2) ^ 2 +
    Real.cos lat1_rad * Real.cos lat2_rad * Real.sin (delta_lon / 2) ^ 2
  let c := 2 * Real.arcsin (Real.sqrt a)
  R * c

/-- The `total_distance` value computed in `wave_propagation_search`
(navigation.py lines 202-207): the sum of consecutive haversine
distances over the waypoint list. -/
noncomputable def totalDistance : List (ℚ × ℚ) → ℝ
  | [] => 0
  | [_] => 0
  | a :: b :: rest => haversine_distance a.1 a.2 b.1 b.2 + totalDistance (b :: rest)

/-- The `efficiency` value computed in `find_sea_route` (navigation.py
line 311): `direct / total * 100` when `total > 0`, else `0`. -/
noncomputable def efficiencyOf (direct total : ℝ) : ℝ :=
  if 0 < total then direct / total * 100 else 0

/-! ## Wave propagation search (src/navigation.py lines 138-237)

The global predicate `is_safe_water` consulted by the search depends on
the loaded polygon store; it is abstracted as a total boolean parameter
`safeW lat lon min_clearance_km` (the store is assumed loaded; the
fallible checker-level predicate is embedded separately below). -/

/-- The BFS search state: FIFO queue, visited set, parent map and
distance map of `wave_propagation_search` (navigation.py lines 166-171).
The Python dicts/sets are modelled as functions / a duplicate-free list. -/
structure BFSState where
  queue : List Cell
  visited : List Cell
  parent : Cell → Option Cell
  distm : Cell → Option ℕ
  iteration : ℕ

/-- Initial search state (navigation.py lines 166-171): the end cell is
enqueued, visited, at distance 0, with no parent. -/
def initState (end_grid : Cell) : BFSState :=
  { queue := [end_grid]
    visited := [end_grid]
    parent := fun _ => none
    distm := fun c => if c = end_grid then some 0 else none
    iteration := 0 }

/-- One neighbor-expansion step of the inner `for` loop (navigation.py
lines 219-233): skip visited cells, and for a safe unvisited neighbor
record visit, parent, distance `d + 1` and enqueue it. -/
def expandStep (safe : Cell → Bool) (current : Cell) (d : ℕ)
    (s : BFSState) (n : Cell) : BFSState :=
  if n ∈ s.visited then s
  else if safe n then
    { queue := s.queue ++ [n]
      visited := n :: s.visited
      parent := fun c => if c = n then some current else s.parent c
      distm := fun c => if c = n then some (d + 1) else s.distm c
      iteration := s.iteration }
  else s

/-- The whole neighbor loop of one dequeue (navigation.py lines 219-233). -/
def expandNeighbors (safe : Cell → Bool) (current : Cell) (d : ℕ)
    (s : BFSState) : BFSState :=
  List.foldl (expandStep safe current d) s (get_neighbors current.1 current.2)

/-- Path reconstruction (navigation.py lines 191-196): walk the parent
map from the start cell until a cell with no parent.  The Python loop
has no explicit bound and terminates because the parent map is acyclic;
the embedding takes fuel and returns `none` if the fuel is exhausted
with a parent still present (modelling divergence, which the proofs
below show cannot happen in states produced by the search). -/
def reconstruct (parent : Cell → Option Cell) : ℕ → Cell → Option (List Cell)
  | fuel, c =>
    match parent c with
    | none => some []
    | some p =>
      match fuel with
      | 0 => none
      | f + 1 => (reconstruct parent f p).map (fun l => c :: l)

/-- The main BFS loop of `wave_propagation_search` (navigation.py lines
176-237).  The fuel counts the remaining allowed dequeues
(`max_iterations - iteration`); a missing distance-map entry for a
dequeued cell (a Python `KeyError`, impossible in reachable states)
also yields `none`.  On success it returns the final state together
with the reconstructed `path_grids` list (ending in the end cell). -/
def bfsLoop (safe : Cell → Bool) (start_grid end_grid : Cell) :
    ℕ → BFSState → Option (BFSState × List Cell)
  | 0, _ => none
  | fuel + 1, st =>
    match st.queue with
    | [] => none
    | current :: rest =>
      let st1 : BFSState :=
        { st with queue := rest, iteration := st.iteration + 1 }
      match st.distm current with
      | none => none
      | some d =>
        if current = start_grid then
          (reconstruct st1.parent st1.visited.length start_grid).map
            (fun pg => (st1, pg ++ [end_grid]))
        else
          bfsLoop safe start_grid end_grid fuel (expandNeighbors safe current d st1)

/-- The cell-level passability predicate used by the search
(navigation.py lines 224-229): dequantize the cell and consult
`is_safe_water` with the configured clearance. -/
def cellSafe (safeW : ℚ → ℚ → ℚ → Bool) (grid_size_km min_clearance_km : ℚ) :
    Cell → Bool := fun n =>
  let p := dequantize_coordinate n.1 n.2 grid_size_km
  safeW p.1 p.2 min_clearance_km

/-- The success record of `wave_propagation_search` (navigation.py lines
209-216).  The stored `total_distance` float equals
`totalDistance waypoints` by construction and is kept as the separate
function above so that the record stays computable. -/
structure WaveResult where
  waypoints : List (ℚ × ℚ)
  grid_cells : ℕ
  iterations : ℕ
  visited_cells : ℕ
  deriving DecidableEq, Repr

/-- Embedding of `wave_propagation_search` (navigation.py lines 138-237),
parameterized by the global `is_safe_water` oracle `safeW`. -/
def wave_propagation_search (safeW : ℚ → ℚ → ℚ → Bool)
    (start_lat start_lon end_lat end_lon grid_size_km min_clearance_km : ℚ) :
    Option WaveResult :=
  let start_grid := quantize_coordinate start_lat start_lon grid_size_km
  let end_grid := quantize_coordinate end_lat end_lon grid_size_km
  let safe := cellSafe safeW grid_size_km min_clearance_km
  (bfsLoop safe start_grid end_grid 1000000 (initState end_grid)).map
    (fun r =>
      { waypoints := r.2.map (fun g => dequantize_coordinate g.1 g.2 grid_size_km)
        grid_cells := r.2.length
        iterations := r.1.iteration
        visited_cells := r.1.visited.length })

/-! ## Planner facade (src/navigation.py lines 239-313) -/

/-- Result of `find_sea_route`: either the failure dict
`{error, waypoints, iterations}` (navigation.py lines 282, 286, 303-307)
or the annotated search result. -/
inductive FSRResult where
  | failure (error : String) (waypoints : List (ℚ × ℚ)) (iterations : ℕ)
  | success (r : WaveResult)
  deriving DecidableEq, Repr

/-- The fixed Yellow Sea bounding box `(min_lat, min_lon, max_lat,
max_lon)` (polygon_checker.py line 16). -/
def YELLOW_SEA_BBOX_TUPLE : ℚ × ℚ × ℚ × ℚ := (19.40, 106.90, 41.68, 129.00)

/-- The Yellow Sea membership test of `find_sea_route` (navigation.py
lines 263-269): both endpoints inside the fixed bbox. -/
def inYellowSea (start_lat start_lon end_lat end_lon : ℚ) : Bool :=
  let b := YELLOW_SEA_BBOX_TUPLE
  decide (b.1 ≤ start_lat ∧ start_lat ≤ b.2.2.1 ∧ b.2.1 ≤ start_lon ∧ start_lon ≤ b.2.2.2 ∧
    b.1 ≤ end_lat ∧ end_lat ≤ b.2.2.1 ∧ b.2.1 ≤ end_lon ∧ end_lon ≤ b.2.2.2)

/-- Embedding of `find_sea_route` (navigation.py lines 239-313).  The
checker installation (lines 263-277) only replaces the global store; the
installed store's `is_safe_water` is the abstracted oracle `safeW`.  The
`max_iterations` parameter is accepted and, exactly as in the source,
never used. -/
def find_sea_route (safeW : ℚ → ℚ → ℚ → Bool)
    (start_lat start_lon end_lat end_lon : ℚ)
    (step_km min_clearance_km : ℚ) (max_iterations : ℕ) : FSRResult :=
  if ¬ safeW start_lat start_lon min_clearance_km then
    .failure "Start point is not in safe water" [] 0
  else if ¬ safeW end_lat end_lon min_clearance_km then
    .failure "End point is not in safe water" [] 0
  else
    match wave_propagation_search safeW start_lat start_lon end_lat end_lon
      step_km min_clearance_km with
    | none => .failure "No route found - destination unreachable" [] 0
    | some r => .success r

/-- The `direct_distance` annotation of `find_sea_route`
(navigation.py line 290). -/
noncomputable def directDistance (start_lat start_lon end_lat end_lon : ℚ) : ℝ :=
  haversine_distance start_lat start_lon end_lat end_lon

/-! ## Reachability model for the BFS claims

`Reach safe root c k` holds when there is a walk of `k` hops in the
8-connected grid from `root` to `c` all of whose cells except `root`
satisfy `safe` - exactly the cells the wave can flood starting from the
(unconditionally enqueued) destination cell. -/

inductive Reach (safe : Cell → Bool) (root : Cell) : Cell → ℕ → Prop where
  | zero : Reach safe root root 0
  | step {c n : Cell} {k : ℕ} :
      Reach safe root c k → Adj c n → safe n = true → Reach safe root n (k + 1)

/-- `RouteTo safe e s p`: `p` is a grid path from `s` to `e` (first
element `s`, last element `e`, consecutive cells 8-adjacent) all of
whose cells except the final one satisfy `safe` - the path model of the
spec's "path through passable terrain", oriented start to end. -/
inductive RouteTo (safe : Cell → Bool) (e : Cell) : Cell → List Cell → Prop where
  | nil : RouteTo safe e e [e]
  | cons {c n : Cell} {l : List Cell} :
      Adj c n → safe c = true → RouteTo safe e n l → RouteTo safe e c (c :: l)

/-- The BFS loop invariant: at the head of each iteration there is a
current wave depth `D` such that the FIFO queue splits into a depth-`D`
block followed by a depth-`D + 1` block, the distance map records exact
shortest flood distances from the root (the destination cell), every
cell of flood distance at most `D` has been discovered, every fully
processed cell has all its safe neighbors discovered, and parent
pointers step down one recorded distance toward the root. -/
structure Inv (safe : Cell → Bool) (root : Cell) (D : ℕ) (st : BFSState) : Prop where
  qlv : ∃ q₁ q₂, st.queue = q₁ ++ q₂ ∧ (∀ c ∈ q₁, st.distm c = some D) ∧
    (∀ c ∈ q₂, st.distm c = some (D + 1))
  vis_iff : ∀ c, c ∈ st.visited ↔ ∃ d, st.distm c = some d
  sound : ∀ c d, st.distm c = some d → Reach safe root c d
  minimal : ∀ c d, st.distm c = some d → ∀ k, Reach safe root c k → d ≤ k
  covered : ∀ c k, Reach safe root c k → k ≤ D → c ∈ st.visited
  closed_nb : ∀ c d, st.distm c = some d → c ∉ st.queue →
    ∀ n, Adj c n → safe n = true → n ∈ st.visited
  par : ∀ c d, st.distm c = some (d + 1) →
    ∃ p, st.parent c = some p ∧ st.distm p = some d ∧ Adj p c ∧ safe c = true
  parent_root : st.parent root = none
  root_dist : st.distm root = some 0
  dist_lt : ∀ c d, st.distm c = some d → d < st.visited.length

/-- The invariant during the neighbor-expansion fold of one dequeued
cell `cur` at depth `D`: like `Inv`, but `cur` has already been popped,
its neighbor guarantee is weakened to the not-yet-processed suffix
`rem` of its neighbor list. -/
structure InvE (safe : Cell → Bool) (root : Cell) (D : ℕ) (cur : Cell)
    (rem : List Cell) (st : BFSState) : Prop where
  qlv : ∃ q₁ q₂, st.queue = q₁ ++ q₂ ∧ (∀ c ∈ q₁, st.distm c = some D) ∧
    (∀ c ∈ q₂, st.distm c = some (D + 1))
  vis_iff : ∀ c, c ∈ st.visited ↔ ∃ d, st.distm c = some d
  sound : ∀ c d, st.distm c = some d → Reach safe root c d
  minimal : ∀ c d, st.distm c = some d → ∀ k, Reach safe root c k → d ≤ k
  covered : ∀ c k, Reach safe root c k → k ≤ D → c ∈ st.visited
  closed_nb : ∀ c d, st.distm c = some d → c ∉ st.queue → c ≠ cur →
    ∀ n, Adj c n → safe n = true → n ∈ st.visited
  cur_nb : ∀ n, Adj cur n → safe n = true → n ∈ rem ∨ n ∈ st.visited
  rem_sub : ∀ n ∈ rem, Adj cur n
  cur_dist : st.distm cur = some D
  par : ∀ c d, st.distm c = some (d + 1) →
    ∃ p, st.parent c = some p ∧ st.distm p = some d ∧ Adj p c ∧ safe c = true
  parent_root : st.parent root = none
  root_dist : st.distm root = some 0
  dist_lt : ∀ c d, st.distm c = some d → d < st.visited.length

/-! ## Polygon checker (src/polygon_checker.py lines 27-316)

The shapely / rtree geometric primitives are external libraries; they
are abstracted as oracle function fields: the prepared geometry is its
point-containment test (taking `x = lon`, `y = lat` as in the source), a
polygon is its planar point-distance oracle, and the spatial index is
its bbox-intersection query returning candidate ids. -/

/-- Abstraction of `LandPolygonChecker`: the fields of the instance that
`is_land`, `get_distance_to_land` and `is_safe_water` consult. -/
structure Checker where
  land_polygons : List ((ℚ × ℚ) → ℚ)
  prepared_geometry : Option (ℚ → ℚ → Bool)
  spatial_index : Option ((ℚ × ℚ × ℚ × ℚ) → List ℕ)

/-- Embedding of `LandPolygonChecker.is_land` (polygon_checker.py lines
249-261): raises `RuntimeError` when the prepared geometry is absent,
otherwise tests containment of `Point(lon, lat)`. -/
def Checker.is_land (c : Checker) (lat lon : ℚ) : Except Err Bool :=
  match c.prepared_geometry with
  | none => .error .runtimeError
  | some g => .ok (g lon lat)

/-- The guarded containment test
`self.prepared_geometry and self.prepared_geometry.contains(point)`
of `get_distance_to_land` (polygon_checker.py line 276). -/
def Checker.containsPoint (c : Checker) (lat lon : ℚ) : Bool :=
  match c.prepared_geometry with
  | none => false
  | some g => g lon lat

/-- Embedding of `LandPolygonChecker.get_distance_to_land`
(polygon_checker.py lines 263-297).  Distances are `WithTop ℚ`, with
`⊤` playing the role of `float('inf')`; an out-of-range candidate id
(a Python `IndexError`, impossible for indices produced by the build)
is modelled as an error. -/
def Checker.get_distance_to_land (c : Checker) (lat lon : ℚ) :
    Except Err (WithTop ℚ) :=
  if c.land_polygons.isEmpty then .error .runtimeError
  else
    match c.spatial_index with
    | none => .error .runtimeError
    | some idx =>
      if c.containsPoint lat lon then .ok 0
      else
        let search_radius : ℚ := 1
        let search_bbox := (lon - search_radius, lat - search_radius,
          lon + search_radius, lat + search_radius)
        let candidate_ids := idx search_bbox
        if candidate_ids = [] then .ok ⊤
        else if candidate_ids.all (fun i => i < c.land_polygons.length) then
          .ok (candidate_ids.foldl
            (fun m i => min m ((c.land_polygons.getD i (fun _ => 0)) (lon, lat)))
            ⊤)
        else .error .indexError

/-- Embedding of `LandPolygonChecker.is_safe_water` (polygon_checker.py
lines 299-315): false on land, otherwise compare the distance to land
against `min_clearance_km / 111.0` degrees; exceptions from either
lookup propagate. -/
def Checker.is_safe_water (c : Checker) (lat lon min_clearance_km : ℚ) :
    Except Err Bool :=
  match c.is_land lat lon with
  | .error e => .error e
  | .ok true => .ok false
  | .ok false =>
    let min_clearance_degrees := min_clearance_km / 111
    match c.get_distance_to_land lat lon with
    | .error e => .error e
    | .ok distance => .ok (decide ((min_clearance_degrees : WithTop ℚ) ≤ distance))

/-! ## Singleton store lifecycle (polygon_checker.py lines 317-382)

Constructing a `LandPolygonChecker` performs file IO; for the lifecycle
claim only the identity of the installed instance and its constructor
arguments matter, so a construction event is modelled by a fresh
numeric id drawn from a counter, plus the `bbox` /
`use_yellow_sea_cache` fields the replacement logic inspects. -/

/-- The constructor-visible state of a `LandPolygonChecker` instance:
a fresh object identity plus the fields set in `__init__`
(polygon_checker.py lines 33-52). -/
structure CheckerInst where
  id : ℕ
  bbox : Option (ℚ × ℚ × ℚ × ℚ)
  use_yellow_sea_cache : Bool
  deriving DecidableEq, Repr

/-- `LandPolygonChecker.__init__` field logic (polygon_checker.py lines
40-52): with `use_yellow_sea_cache` and no explicit bbox, the fixed
Yellow Sea bbox is installed; otherwise the given bbox (possibly none). -/
def mkInst (freshId : ℕ) (bbox : Option (ℚ × ℚ × ℚ × ℚ))
    (use_yellow_sea_cache : Bool) : CheckerInst :=
  { id := freshId
    use_yellow_sea_cache := use_yellow_sea_cache
    bbox := if use_yellow_sea_cache ∧ bbox = none then
        some YELLOW_SEA_BBOX_TUPLE
      else bbox }

/-- The module-level singleton state: `_checker_instance` plus the next
fresh object id. -/
structure StoreState where
  inst : Option CheckerInst
  nextId : ℕ
  deriving DecidableEq, Repr

/-- Embedding of `get_checker` (polygon_checker.py lines 320-339). -/
def get_checker (bbox : Option (ℚ × ℚ × ℚ × ℚ)) (use_yellow_sea : Bool)
    (st : StoreState) : CheckerInst × StoreState :=
  let use_yellow_sea := if bbox ≠ none then false else use_yellow_sea
  match st.inst with
  | none =>
    let c := mkInst st.nextId bbox use_yellow_sea
    (c, ⟨some c, st.nextId + 1⟩)
  | some inst =>
    if bbox ≠ none ∧ inst.bbox ≠ bbox then
      let c := mkInst st.nextId bbox false
      (c, ⟨some c, st.nextId + 1⟩)
    else (inst, st)

/-- Embedding of `initialize_yellow_sea_checker` (polygon_checker.py
lines 341-350): unconditionally installs a fresh Yellow Sea instance. -/
def initialize_yellow_sea_checker (st : StoreState) : CheckerInst × StoreState :=
  let c := mkInst st.nextId none true
  (c, ⟨some c, st.nextId + 1⟩)

/-- Embedding of `initialize_checker_for_route` (polygon_checker.py
lines 352-382): unconditionally installs a fresh instance for the
margin-padded bbox around the endpoints. -/
def initialize_checker_for_route (start_lat start_lon end_lat end_lon margin_km : ℚ)
    (st : StoreState) : CheckerInst × StoreState :=
  let margin_degrees := margin_km / 111
  let min_lat := min start_lat end_lat - margin_degrees
  let max_lat := max start_lat end_lat + margin_degrees
  let min_lon := min start_lon end_lon - margin_degrees
  let max_lon := max start_lon end_lon + margin_degrees
  let c := mkInst st.nextId (some (min_lat, min_lon, max_lat, max_lon)) false
  (c, ⟨some c, st.nextId + 1⟩)

/-- The checker-installation step of `find_sea_route` (navigation.py
lines 262-277): Yellow Sea initialization when both endpoints are in the
fixed bbox, otherwise a custom route bbox with margin
`max(200, 5 * min_clearance_km)` km. -/
def routeCheckerInit (start_lat start_lon end_lat end_lon min_clearance_km : ℚ)
    (st : StoreState) : CheckerInst × StoreState :=
  if inYellowSea start_lat start_lon end_lat end_lon then
    initialize_yellow_sea_checker st
  else
    initialize_checker_for_route start_lat start_lon end_lat end_lon
      (max 200 (min_clearance_km * 5)) st

/-! ## Geocoding corroborator (src/checker.py lines 8-44)

The Google Maps client is external; one call of the function is
modelled by the outcome of its reverse-geocode request. -/

/-- Outcome of the reverse-geocode call inside the `try` block of
`checker.is_land`: a result list (each result abstracted to its
`types` field), an `ApiError`, or any other exception. -/
inductive GeoOutcome where
  | results (rs : List (List String))
  | apiError
  | otherError

/-- The land-indicating place types of checker.py line 28. -/
def land_indicators : List String :=
  ["route", "street_address", "premise", "intersection"]

/-- Embedding of `checker.is_land` (checker.py lines 8-44),
parameterized by the `GOOGLE_MAPS_API_KEY` environment value and the
geocode outcome.  `os.getenv` yields `none` when the variable is unset,
and the guard `if not api_key` tests Python truthiness: both `None` and
the empty string are falsy, so either raises `ValueError` (before the
`try` block).  Every exception inside the `try` block is caught and
yields `False`. -/
def geocode_is_land (apiKey : Option String) (outcome : GeoOutcome) :
    Except Err Bool :=
  if apiKey = none ∨ apiKey = some "" then .error .valueError
  else
    match outcome with
    | .apiError => .ok false
    | .otherError => .ok false
    | .results rs =>
      if rs = [] then .ok false
      else .ok (rs.any fun types =>
        land_indicators.any fun indicator => types.contains indicator)

/-! # Proof development -/

/-! ## Rounding and the quantizer -/

theorem abs_sub_pyRound_le (q : ℚ) : |q - (pyRound q : ℚ)| ≤ 1/2 := by
  have h1 : (⌊q⌋ : ℚ) ≤ q := Int.floor_le q
  have h2 : q < ⌊q⌋ + 1 := Int.lt_floor_add_one q
  unfold pyRound
  split_ifs with ha hb hc <;>
    (rw [abs_le]; push_cast; constructor <;> linarith)

set_option maxHeartbeats 1000000 in
theorem adj_symm {a b : Cell} (h : Adj a b) : Adj b a := by
  obtain ⟨a1, a2⟩ := a
  obtain ⟨b1, b2⟩ := b
  simp only [Adj, get_neighbors, List.mem_cons, List.mem_singleton,
    List.not_mem_nil, or_false, Prod.mk.injEq] at h ⊢
  omega

set_option maxHeartbeats 1000000 in
theorem adj_irrefl (a : Cell) : ¬ Adj a a := by
  obtain ⟨a1, a2⟩ := a
  simp only [Adj, get_neighbors, List.mem_cons, List.mem_singleton,
    List.not_mem_nil, or_false, Prod.mk.injEq]
  omega

/-! ## Reachability and routes -/

theorem RouteTo.length_pos {safe : Cell → Bool} {e s : Cell} {p : List Cell}
    (h : RouteTo safe e s p) : 0 < p.length := by
  cases h <;> simp

theorem reach_of_routeTo {safe : Cell → Bool} {e s : Cell} {p : List Cell}
    (h : RouteTo safe e s p) : Reach safe e s (p.length - 1) := by
  induction h with
  | nil => simpa using Reach.zero
  | @cons c n l hadj hsafe htail ih =>
    have hl : 0 < l.length := htail.length_pos
    have hstep : Reach safe e c (l.length - 1 + 1) :=
      Reach.step ih (adj_symm hadj) hsafe
    have : l.length - 1 + 1 = (c :: l).length - 1 := by
      simp; omega
    rwa [this] at hstep

theorem routeTo_of_reach {safe : Cell → Bool} {e c : Cell} {k : ℕ}
    (h : Reach safe e c k) : ∃ p, RouteTo safe e c p ∧ p.length = k + 1 := by
  induction h with
  | zero => exact ⟨[e], RouteTo.nil, rfl⟩
  | @step c n k hr hadj hsafe ih =>
    obtain ⟨p, hp, hl⟩ := ih
    exact ⟨n :: p, RouteTo.cons (adj_symm hadj) hsafe hp, by simp [hl]⟩

theorem reach_zero_eq {safe : Cell → Bool} {root c : Cell}
    (h : Reach safe root c 0) : c = root := by
  cases h; rfl

/-! ## BFS invariant: establishment and preservation -/

theorem inv_init (safe : Cell → Bool) (root : Cell) :
    Inv safe root 0 (initState root) := by
  constructor
  · refine ⟨[root], [], rfl, ?_, by simp⟩
    intro c hc
    simp only [List.mem_singleton] at hc
    subst hc
    simp [initState]
  · intro c
    constructor
    · intro hc
      simp only [initState, List.mem_singleton] at hc
      subst hc
      exact ⟨0, by simp [initState]⟩
    · rintro ⟨d, hd⟩
      simp only [initState] at hd ⊢
      by_cases h : c = root
      · simp [h]
      · simp [h] at hd
  · intro c d hd
    simp only [initState] at hd
    by_cases h : c = root
    · rw [if_pos h] at hd
      injection hd with hd
      rw [h, ← hd]
      exact Reach.zero
    · rw [if_neg h] at hd
      exact absurd hd (by simp)
  · intro c d hd k _
    simp only [initState] at hd
    by_cases h : c = root
    · rw [if_pos h] at hd
      injection hd with hd
      omega
    · rw [if_neg h] at hd
      exact absurd hd (by simp)
  · intro c k hk hk0
    have hk0 : k = 0 := Nat.le_zero.mp hk0
    subst hk0
    have := reach_zero_eq hk
    subst this
    simp [initState]
  · intro c d hd hq n _ _
    simp only [initState] at hd hq
    by_cases h : c = root
    · rw [h] at hq
      simp at hq
    · rw [if_neg h] at hd
      exact absurd hd (by simp)
  · intro c d hd
    simp only [initState] at hd
    by_cases h : c = root
    · rw [if_pos h] at hd
      injection hd with hd
      exact absurd hd (by omega)
    · rw [if_neg h] at hd
      exact absurd hd (by simp)
  · simp [initState]
  · simp [initState]
  · intro c d hd
    simp only [initState] at hd
    by_cases h : c = root
    · rw [if_pos h] at hd
      injection hd with hd
      simp [initState]
      omega
    · rw [if_neg h] at hd
      exact absurd hd (by simp)

theorem inv_head_cases {safe : Cell → Bool} {root : Cell} {D : ℕ} {st : BFSState}
    {cur : Cell} {rest : List Cell} (H : Inv safe root D st)
    (hq : st.queue = cur :: rest) :
    st.distm cur = some D ∨ (∀ c ∈ st.queue, st.distm c = some (D + 1)) := by
  obtain ⟨q₁, q₂, hsplit, h1, h2⟩ := H.qlv
  cases q₁ with
  | nil =>
    right
    intro c hc
    rw [hsplit] at hc
    simp only [List.nil_append] at hc
    exact h2 c hc
  | cons x q₁t =>
    left
    rw [hq] at hsplit
    simp only [List.cons_append] at hsplit
    have hx : x = cur := by
      injection hsplit with h _
      exact h.symm
    rw [← hx]
    exact h1 x (List.mem_cons_self _ _)

theorem inv_renorm {safe : Cell → Bool} {root : Cell} {D : ℕ} {st : BFSState}
    (H : Inv safe root D st)
    (hall : ∀ c ∈ st.queue, st.distm c = some (D + 1)) :
    Inv safe root (D + 1) st := by
  refine ⟨⟨st.queue, [], by simp, hall, by simp⟩, H.vis_iff, H.sound, H.minimal,
    ?_, H.closed_nb, H.par, H.parent_root, H.root_dist, H.dist_lt⟩
  intro c k hk hkD
  rcases Nat.lt_or_ge k (D + 1) with hlt | hge
  · exact H.covered c k hk (Nat.lt_succ_iff.mp hlt)
  · have hkeq : k = D + 1 := le_antisymm hkD hge
    subst hkeq
    cases hk with
    | @step cp nn kk hr hadj hsafe =>
      have hv := H.covered _ _ hr (le_refl _)
      obtain ⟨dc, hdc⟩ := (H.vis_iff _).mp hv
      have hdcle : dc ≤ D := H.minimal _ _ hdc _ hr
      have hnotq : cp ∉ st.queue := by
        intro hmem
        have h2 := hall _ hmem
        rw [hdc] at h2
        injection h2 with h2
        omega
      exact H.closed_nb _ _ hdc hnotq _ hadj hsafe

theorem inv_pop {safe : Cell → Bool} {root : Cell} {D : ℕ} {st : BFSState}
    {cur : Cell} {rest : List Cell} (H : Inv safe root D st)
    (hq : st.queue = cur :: rest) (hd : st.distm cur = some D) (it : ℕ) :
    InvE safe root D cur (get_neighbors cur.1 cur.2)
      { st with queue := rest, iteration := it } := by
  obtain ⟨q₁, q₂, hsplit, h1, h2⟩ := H.qlv
  refine ⟨?_, H.vis_iff, H.sound, H.minimal, H.covered, ?_, ?_, ?_, hd,
    H.par, H.parent_root, H.root_dist, H.dist_lt⟩
  · cases q₁ with
    | nil =>
      cases q₂ with
      | nil => simp [hq] at hsplit
      | cons y q₂t =>
        rw [hq] at hsplit
        simp only [List.nil_append] at hsplit
        injection hsplit with hy ht
        refine ⟨[], q₂t, by simpa using ht, by simp, ?_⟩
        intro c hc
        exact h2 c (by simp [hc])
    | cons x q₁t =>
      rw [hq] at hsplit
      simp only [List.cons_append] at hsplit
      injection hsplit with hx ht
      refine ⟨q₁t, q₂, by simpa using ht, ?_, h2⟩
      intro c hc
      exact h1 c (by simp [hc])
  · intro c d hdc hnotq hne n hadj hsafe
    have : c ∉ st.queue := by
      rw [hq]
      simp only [List.mem_cons, not_or]
      exact ⟨hne, hnotq⟩
    exact H.closed_nb c d hdc this n hadj hsafe
  · intro n hadj _
    exact Or.inl hadj
  · intro n hn
    exact hn

theorem invE_step {safe : Cell → Bool} {root : Cell} {D : ℕ} {cur n : Cell}
    {rem : List Cell} {st : BFSState}
    (H : InvE safe root D cur (n :: rem) st) :
    InvE safe root D cur rem (expandStep safe cur D st n) := by
  rw [expandStep]
  split_ifs with hv hs
  · refine ⟨H.qlv, H.vis_iff, H.sound, H.minimal, H.covered, H.closed_nb,
      ?_, ?_, H.cur_dist, H.par, H.parent_root, H.root_dist, H.dist_lt⟩
    · intro m hadj hsafe
      rcases H.cur_nb m hadj hsafe with hm | hm
      · rcases List.mem_cons.mp hm with rfl | hm
        · exact Or.inr hv
        · exact Or.inl hm
      · exact Or.inr hm
    · intro m hm
      exact H.rem_sub m (List.mem_cons_of_mem _ hm)
  · -- n is unvisited safe water: it is visited, parented and enqueued
    have hdn : st.distm n = none := by
      cases h : st.distm n with
      | none => rfl
      | some d => exact absurd ((H.vis_iff n).mpr ⟨d, h⟩) hv
    have hadjn : Adj cur n := H.rem_sub n (List.mem_cons_self _ _)
    have hcurvis : cur ∈ st.visited := (H.vis_iff cur).mpr ⟨D, H.cur_dist⟩
    have hcurne : cur ≠ n := fun h => hv (h ▸ hcurvis)
    have hrootne : root ≠ n := by
      intro h
      exact hv (h ▸ ((H.vis_iff root).mpr ⟨0, H.root_dist⟩))
    have hreachn : Reach safe root n (D + 1) :=
      Reach.step (H.sound cur D H.cur_dist) hadjn hs
    have hminn : ∀ k, Reach safe root n k → D + 1 ≤ k := by
      intro k hk
      by_contra hlt
      push_neg at hlt
      exact hv (H.covered n k hk (by omega))
    refine ⟨?_, ?_, ?_, ?_, ?_, ?_, ?_, ?_, ?_, ?_, ?_, ?_, ?_⟩
    · obtain ⟨q₁, q₂, hq, h1, h2⟩ := H.qlv
      refine ⟨q₁, q₂ ++ [n], by simp [hq], ?_, ?_⟩
      · intro c hc
        have hcd := h1 c hc
        have hcn : c ≠ n := by
          intro h
          rw [h, hdn] at hcd
          exact absurd hcd (by simp)
        dsimp only
        rw [if_neg hcn]
        exact hcd
      · intro c hc
        rcases List.mem_append.mp hc with hc | hc
        · have hcd := h2 c hc
          have hcn : c ≠ n := by
            intro h
            rw [h, hdn] at hcd
            exact absurd hcd (by simp)
          dsimp only
          rw [if_neg hcn]
          exact hcd
        · simp only [List.mem_singleton] at hc
          subst hc
          dsimp only
          rw [if_pos rfl]
    · intro c
      dsimp only
      by_cases hc : c = n
      · subst hc
        simp
      · simp only [List.mem_cons, if_neg hc]
        constructor
        · rintro (h | h)
          · exact absurd h hc
          · exact (H.vis_iff c).mp h
        · intro h
          exact Or.inr ((H.vis_iff c).mpr h)
    · intro c d hd
      dsimp only at hd
      by_cases hc : c = n
      · subst hc
        rw [if_pos rfl] at hd
        injection hd with hd
        rw [← hd]
        exact hreachn
      · rw [if_neg hc] at hd
        exact H.sound c d hd
    · intro c d hd k hk
      dsimp only at hd
      by_cases hc : c = n
      · subst hc
        rw [if_pos rfl] at hd
        injection hd with hd
        rw [← hd]
        exact hminn k hk
      · rw [if_neg hc] at hd
        exact H.minimal c d hd k hk
    · intro c k hk hkD
      exact List.mem_cons_of_mem _ (H.covered c k hk hkD)
    · intro c d hd hq hne m hadj hsafe
      dsimp only at hd hq
      have hq1 : c ∉ st.queue := fun h => hq (List.mem_append.mpr (Or.inl h))
      have hcn : c ≠ n := by
        intro h
        exact hq (List.mem_append.mpr (Or.inr (by simp [h])))
      rw [if_neg hcn] at hd
      exact List.mem_cons_of_mem _ (H.closed_nb c d hd hq1 hne m hadj hsafe)
    · intro m hadj hsafe
      rcases H.cur_nb m hadj hsafe with hm | hm
      · rcases List.mem_cons.mp hm with rfl | hm
        · exact Or.inr (List.mem_cons_self _ _)
        · exact Or.inl hm
      · exact Or.inr (List.mem_cons_of_mem _ hm)
    · intro m hm
      exact H.rem_sub m (List.mem_cons_of_mem _ hm)
    · dsimp only
      rw [if_neg hcurne]
      exact H.cur_dist
    · intro c d hd
      dsimp only at hd ⊢
      by_cases hc : c = n
      · subst hc
        rw [if_pos rfl] at hd
        injection hd with hd
        have hD : d = D := by omega
        subst hD
        refine ⟨cur, ?_, ?_, hadjn, hs⟩
        · rw [if_pos rfl]
        · rw [if_neg hcurne]
          exact H.cur_dist
      · rw [if_neg hc] at hd
        obtain ⟨p, hp1, hp2, hp3, hp4⟩ := H.par c d hd
        have hpn : p ≠ n := by
          intro h
          rw [h, hdn] at hp2
          exact absurd hp2 (by simp)
        refine ⟨p, ?_, ?_, hp3, hp4⟩
        · rw [if_neg hc]
          exact hp1
        · rw [if_neg hpn]
          exact hp2
    · dsimp only
      rw [if_neg hrootne]
      exact H.parent_root
    · dsimp only
      rw [if_neg hrootne]
      exact H.root_dist
    · intro c d hd
      dsimp only at hd ⊢
      by_cases hc : c = n
      · subst hc
        rw [if_pos rfl] at hd
        injection hd with hd
        have := H.dist_lt cur D H.cur_dist
        simp only [List.length_cons]
        omega
      · rw [if_neg hc] at hd
        have := H.dist_lt c d hd
        simp only [List.length_cons]
        omega
  · -- n is unvisited but not safe: skipped
    refine ⟨H.qlv, H.vis_iff, H.sound, H.minimal, H.covered, H.closed_nb,
      ?_, ?_, H.cur_dist, H.par, H.parent_root, H.root_dist, H.dist_lt⟩
    · intro m hadj hsafe
      rcases H.cur_nb m hadj hsafe with hm | hm
      · rcases List.mem_cons.mp hm with rfl | hm
        · exact absurd hsafe hs
        · exact Or.inl hm
      · exact Or.inr hm
    · intro m hm
      exact H.rem_sub m (List.mem_cons_of_mem _ hm)

theorem invE_fold {safe : Cell → Bool} {root : Cell} {D : ℕ} {cur : Cell} :
    ∀ (rem : List Cell) (st : BFSState), InvE safe root D cur rem st →
    InvE safe root D cur [] (List.foldl (expandStep safe cur D) st rem) := by
  intro rem
  induction rem with
  | nil =>
    intro st H
    simpa using H
  | cons n rem ih =>
    intro st H
    rw [List.foldl_cons]
    exact ih _ (invE_step H)

theorem invE_close {safe : Cell → Bool} {root : Cell} {D : ℕ} {cur : Cell}
    {st : BFSState} (H : InvE safe root D cur [] st) : Inv safe root D st := by
  refine ⟨H.qlv, H.vis_iff, H.sound, H.minimal, H.covered, ?_, H.par,
    H.parent_root, H.root_dist, H.dist_lt⟩
  intro c d hd hq m hadj hsafe
  by_cases hc : c = cur
  · subst hc
    rcases H.cur_nb m hadj hsafe with hm | hm
    · exact absurd hm (List.not_mem_nil m)
    · exact hm
  · exact H.closed_nb c d hd hq hc m hadj hsafe

theorem inv_step {safe : Cell → Bool} {root : Cell} {D : ℕ} {st : BFSState}
    {cur : Cell} {rest : List Cell} (H : Inv safe root D st)
    (hq : st.queue = cur :: rest) (hd : st.distm cur = some D) (it : ℕ) :
    Inv safe root D
      (expandNeighbors safe cur D { st with queue := rest, iteration := it }) :=
  invE_close (invE_fold _ _ (inv_pop H hq hd it))

/-! ## Unfolding equations for the loop -/

theorem bfsLoop_zero (safe : Cell → Bool) (sg eg : Cell) (st : BFSState) :
    bfsLoop safe sg eg 0 st = none := by
  rw [bfsLoop]

theorem bfsLoop_succ_nil {safe : Cell → Bool} {sg eg : Cell} {fuel : ℕ}
    {st : BFSState} (hq : st.queue = []) :
    bfsLoop safe sg eg (fuel + 1) st = none := by
  rw [bfsLoop, hq]

theorem bfsLoop_succ_cons {safe : Cell → Bool} {sg eg : Cell} {fuel : ℕ}
    {st : BFSState} {cur : Cell} {rest : List Cell} (hq : st.queue = cur :: rest) :
    bfsLoop safe sg eg (fuel + 1) st =
      match st.distm cur with
      | none => none
      | some d =>
        if cur = sg then
          (reconstruct st.parent st.visited.length sg).map
            (fun pg => (({ st with queue := rest, iteration := st.iteration + 1 } : BFSState), pg ++ [eg]))
        else
          bfsLoop safe sg eg fuel (expandNeighbors safe cur d
            { st with queue := rest, iteration := st.iteration + 1 }) := by
  rw [bfsLoop, hq]

theorem reconstruct_none {parent : Cell → Option Cell} {c : Cell} {fuel : ℕ}
    (hp : parent c = none) : reconstruct parent fuel c = some [] := by
  rw [reconstruct, hp]

theorem reconstruct_some {parent : Cell → Option Cell} {c p : Cell} {fuel : ℕ}
    (hp : parent c = some p) :
    reconstruct parent (fuel + 1) c =
      (reconstruct parent fuel p).map (fun l => c :: l) := by
  rw [reconstruct, hp]

/-! ## Path reconstruction produces a shortest route -/

theorem reconstruct_spec {safe : Cell → Bool} {root : Cell} {D : ℕ}
    {st : BFSState} (H : Inv safe root D st) :
    ∀ d c, st.distm c = some d → ∀ fuel, d ≤ fuel →
    ∃ pg, reconstruct st.parent fuel c = some pg ∧ pg.length = d ∧
      RouteTo safe root c (pg ++ [root]) := by
  intro d
  induction d with
  | zero =>
    intro c hc fuel _
    have hcr : c = root := reach_zero_eq (H.sound c 0 hc)
    subst hcr
    exact ⟨[], reconstruct_none H.parent_root, rfl, RouteTo.nil⟩
  | succ d ih =>
    intro c hc fuel hfuel
    obtain ⟨p, hp1, hp2, hp3, hp4⟩ := H.par c d hc
    cases fuel with
    | zero => omega
    | succ f =>
      obtain ⟨pg, hr, hlen, hroute⟩ := ih p hp2 f (by omega)
      refine ⟨c :: pg, ?_, by simp [hlen], ?_⟩
      · rw [reconstruct_some hp1, hr]
        rfl
      · exact RouteTo.cons (adj_symm hp3) hp4 hroute

/-! ## Iteration counting -/

theorem expandStep_iteration (safe : Cell → Bool) (cur : Cell) (d : ℕ)
    (s : BFSState) (n : Cell) :
    (expandStep safe cur d s n).iteration = s.iteration := by
  rw [expandStep]
  split_ifs <;> rfl

theorem expandNeighbors_iteration (safe : Cell → Bool) (cur : Cell) (d : ℕ)
    (st : BFSState) :
    (expandNeighbors safe cur d st).iteration = st.iteration := by
  rw [expandNeighbors]
  generalize get_neighbors cur.1 cur.2 = l
  induction l generalizing st with
  | nil => rfl
  | cons n l ih => rw [List.foldl_cons, ih, expandStep_iteration]

theorem bfsLoop_iteration_le {safe : Cell → Bool} {sg eg : Cell} :
    ∀ (fuel : ℕ) (st stf : BFSState) (pg : List Cell),
    bfsLoop safe sg eg fuel st = some (stf, pg) →
    stf.iteration ≤ st.iteration + fuel := by
  intro fuel
  induction fuel with
  | zero =>
    intro st stf pg h
    rw [bfsLoop_zero] at h
    exact absurd h (by simp)
  | succ fuel ih =>
    intro st stf pg h
    cases hq : st.queue with
    | nil =>
      rw [bfsLoop_succ_nil hq] at h
      exact absurd h (by simp)
    | cons cur rest =>
      rw [bfsLoop_succ_cons hq] at h
      split at h
      · exact absurd h (by simp)
      case _ d hdm =>
        by_cases hc : cur = sg
        · rw [if_pos hc] at h
          cases hrec : reconstruct st.parent st.visited.length sg with
          | none =>
            rw [hrec] at h
            exact absurd h (by simp)
          | some pgr =>
            rw [hrec] at h
            simp only [Option.map_some'] at h
            injection h with h
            injection h with h1 h2
            rw [← h1]
            dsimp only
            omega
        · rw [if_neg hc] at h
          have := ih _ _ _ h
          rw [expandNeighbors_iteration] at this
          simp only at this
          omega

/-! ## Main BFS correctness -/

theorem bfsLoop_spec {safe : Cell → Bool} {sg eg : Cell} :
    ∀ (fuel : ℕ) (st : BFSState), (∃ D, Inv safe eg D st) →
    ∀ (stf : BFSState) (pg : List Cell),
    bfsLoop safe sg eg fuel st = some (stf, pg) →
    ∃ d, stf.distm sg = some d ∧ pg.length = d + 1 ∧
      RouteTo safe eg sg pg ∧ (∀ k, Reach safe eg sg k → d ≤ k) := by
  intro fuel
  induction fuel with
  | zero =>
    intro st _ stf pg h
    rw [bfsLoop_zero] at h
    exact absurd h (by simp)
  | succ fuel ih =>
    intro st HD stf pg h
    obtain ⟨D, H⟩ := HD
    cases hq : st.queue with
    | nil =>
      rw [bfsLoop_succ_nil hq] at h
      exact absurd h (by simp)
    | cons cur rest =>
      rw [bfsLoop_succ_cons hq] at h
      split at h
      · exact absurd h (by simp)
      case _ d hdm =>
        by_cases hc : cur = sg
        · rw [if_pos hc] at h
          rw [hc] at hdm
          have hlt : d < st.visited.length := H.dist_lt _ _ hdm
          obtain ⟨pg', hrec, hlen, hroute⟩ :=
            reconstruct_spec H d sg hdm st.visited.length (by omega)
          rw [hrec] at h
          simp only [Option.map_some'] at h
          injection h with h
          injection h with h1 h2
          refine ⟨d, ?_, ?_, ?_, H.minimal _ _ hdm⟩
          · rw [← h1]
            exact hdm
          · rw [← h2]
            simp [hlen]
          · rw [← h2]
            exact hroute
        · rw [if_neg hc] at h
          rcases inv_head_cases H hq with hD | hall
          · have hdD : d = D := by
              rw [hdm] at hD
              injection hD
            subst hdD
            exact ih _ ⟨_, inv_step H hq hdm _⟩ stf pg h
          · have hDd : st.distm cur = some (D + 1) :=
              hall cur (by rw [hq]; exact List.mem_cons_self _ _)
            have hdD : d = D + 1 := by
              rw [hdm] at hDd
              injection hDd
            subst hdD
            exact ih _ ⟨D + 1, inv_step (inv_renorm H hall) hq hdm _⟩ stf pg h

/-! ## Search-level lemmas -/

theorem wps_eq_some_iff {safeW : ℚ → ℚ → ℚ → Bool}
    {slat slon elat elon gs clr : ℚ} {r : WaveResult}
    (h : wave_propagation_search safeW slat slon elat elon gs clr = some r) :
    ∃ stf pg, bfsLoop (cellSafe safeW gs clr)
        (quantize_coordinate slat slon gs) (quantize_coordinate elat elon gs)
        1000000 (initState (quantize_coordinate elat elon gs)) = some (stf, pg) ∧
      r = { waypoints := pg.map (fun g => dequantize_coordinate g.1 g.2 gs)
            grid_cells := pg.length
            iterations := stf.iteration
            visited_cells := stf.visited.length } := by
  simp only [wave_propagation_search] at h
  cases hb : bfsLoop (cellSafe safeW gs clr)
      (quantize_coordinate slat slon gs) (quantize_coordinate elat elon gs)
      1000000 (initState (quantize_coordinate elat elon gs)) with
  | none =>
    rw [hb] at h
    exact absurd h (by simp)
  | some res =>
    obtain ⟨stf, pg⟩ := res
    rw [hb] at h
    simp only [Option.map_some', Option.some.injEq] at h
    exact ⟨stf, pg, rfl, h.symm⟩

/-- C1: when `wave_propagation_search` succeeds, the final distance map
entry of the start cell is the minimum hop count over all 8-connected
grid paths from the start cell to the end cell whose cells (except
possibly the final destination cell, which the search floods
unconditionally) satisfy the safety predicate, and the returned
waypoint list is the dequantization of such a shortest-hop path. -/
theorem wave_propagation_search_shortest
    (safeW : ℚ → ℚ → ℚ → Bool) (slat slon elat elon gs clr : ℚ)
    (hgs : 0 < gs) (r : WaveResult)
    (h : wave_propagation_search safeW slat slon elat elon gs clr = some r) :
    ∃ (stf : BFSState) (pg : List Cell) (d : ℕ),
      bfsLoop (cellSafe safeW gs clr)
        (quantize_coordinate slat slon gs) (quantize_coordinate elat elon gs)
        1000000 (initState (quantize_coordinate elat elon gs)) = some (stf, pg) ∧
      stf.distm (quantize_coordinate slat slon gs) = some d ∧
      pg.length = d + 1 ∧
      r.waypoints = pg.map (fun g => dequantize_coordinate g.1 g.2 gs) ∧
      r.grid_cells = pg.length ∧
      RouteTo (cellSafe safeW gs clr) (quantize_coordinate elat elon gs)
        (quantize_coordinate slat slon gs) pg ∧
      (∀ q, RouteTo (cellSafe safeW gs clr) (quantize_coordinate elat elon gs)
        (quantize_coordinate slat slon gs) q → pg.length ≤ q.length) := by
  obtain ⟨stf, pg, hb, hr⟩ := wps_eq_some_iff h
  obtain ⟨d, hd, hlen, hroute, hmin⟩ :=
    bfsLoop_spec 1000000 _ ⟨0, inv_init _ _⟩ stf pg hb
  refine ⟨stf, pg, d, hb, hd, hlen, by rw [hr], by rw [hr], hroute, ?_⟩
  intro q hq
  have h1 := hmin (q.length - 1) (reach_of_routeTo hq)
  have h2 := hq.length_pos
  omega

/-- C5 support: any returned iteration count is bounded by the
1,000,000 dequeue cap, the loop returns `none` on an empty queue or
exhausted cap, and `find_sea_route` ignores its `max_iterations`
argument entirely. -/
theorem search_iteration_cap
    (safeW : ℚ → ℚ → ℚ → Bool) (slat slon elat elon gs clr : ℚ) :
    (∀ r, wave_propagation_search safeW slat slon elat elon gs clr = some r →
      r.iterations ≤ 1000000) ∧
    (∀ (st : BFSState) (fuel : ℕ), st.queue = [] ∨ fuel = 0 →
      bfsLoop (cellSafe safeW gs clr) (quantize_coordinate slat slon gs)
        (quantize_coordinate elat elon gs) fuel st = none) ∧
    (∀ (m1 m2 : ℕ),
      find_sea_route safeW slat slon elat elon gs clr m1 =
      find_sea_route safeW slat slon elat elon gs clr m2) := by
  refine ⟨?_, ?_, fun m1 m2 => rfl⟩
  · intro r h
    obtain ⟨stf, pg, hb, hr⟩ := wps_eq_some_iff h
    have := bfsLoop_iteration_le 1000000 _ stf pg hb
    rw [hr]
    simpa [initState] using this
  · intro st fuel hcase
    rcases hcase with hq | hf
    · cases fuel with
      | zero => exact bfsLoop_zero _ _ _ _
      | succ f => exact bfsLoop_succ_nil hq
    · subst hf
      exact bfsLoop_zero _ _ _ _

/-- When start and end coordinates quantize to the same cell, the very
first dequeue pops the destination cell, which is the start cell, and
the search returns the singleton path immediately. -/
theorem wps_same_cell (safeW : ℚ → ℚ → ℚ → Bool)
    (slat slon elat elon gs clr : ℚ)
    (hcell : quantize_coordinate slat slon gs = quantize_coordinate elat elon gs) :
    wave_propagation_search safeW slat slon elat elon gs clr =
      some { waypoints := [dequantize_coordinate
               (quantize_coordinate elat elon gs).1
               (quantize_coordinate elat elon gs).2 gs]
             grid_cells := 1, iterations := 1, visited_cells := 1 } := by
  simp only [wave_propagation_search, hcell]
  have hq : (initState (quantize_coordinate elat elon gs)).queue =
      quantize_coordinate elat elon gs :: [] := rfl
  rw [show (1000000 : ℕ) = 999999 + 1 from rfl, bfsLoop_succ_cons hq]
  split
  · next hdm =>
    exact absurd hdm (by simp [initState])
  · next d hdm =>
    rw [if_pos rfl,
      reconstruct_none (show (initState (quantize_coordinate elat elon gs)).parent
        (quantize_coordinate elat elon gs) = none from rfl)]
    rfl

/-- C9: if the two endpoints quantize to the same grid cell then the
search succeeds with exactly the one dequantized waypoint, 1 grid cell,
1 iteration, total distance 0, and when both endpoints pass the safety
check, `find_sea_route` returns that result with efficiency 0. -/
theorem same_cell_route (safeW : ℚ → ℚ → ℚ → Bool)
    (slat slon elat elon gs clr : ℚ) (m : ℕ)
    (hcell : quantize_coordinate slat slon gs = quantize_coordinate elat elon gs) :
    (wave_propagation_search safeW slat slon elat elon gs clr =
      some { waypoints := [dequantize_coordinate
               (quantize_coordinate elat elon gs).1
               (quantize_coordinate elat elon gs).2 gs]
             grid_cells := 1, iterations := 1, visited_cells := 1 }) ∧
    totalDistance [dequantize_coordinate
      (quantize_coordinate elat elon gs).1
      (quantize_coordinate elat elon gs).2 gs] = 0 ∧
    (safeW slat slon clr = true → safeW elat elon clr = true →
      find_sea_route safeW slat slon elat elon gs clr m =
        .success { waypoints := [dequantize_coordinate
                     (quantize_coordinate elat elon gs).1
                     (quantize_coordinate elat elon gs).2 gs]
                   grid_cells := 1, iterations := 1, visited_cells := 1 } ∧
      efficiencyOf (directDistance slat slon elat elon)
        (totalDistance [dequantize_coordinate
          (quantize_coordinate elat elon gs).1
          (quantize_coordinate elat elon gs).2 gs]) = 0) := by
  refine ⟨wps_same_cell safeW slat slon elat elon gs clr hcell, rfl, ?_⟩
  intro hs he
  constructor
  · rw [find_sea_route, if_neg (by simp [hs]), if_neg (by simp [he]),
      wps_same_cell safeW slat slon elat elon gs clr hcell]
  · rw [show totalDistance [dequantize_coordinate
        (quantize_coordinate elat elon gs).1
        (quantize_coordinate elat elon gs).2 gs] = 0 from rfl]
    rw [efficiencyOf, if_neg (by norm_num)]

/-! ## C3: quantize/dequantize round trip -/

open Real in
/-- C3 counterexample: at `(lat, lon) = (0.5, 0.5)` with
`cell_km = 111` (so one grid cell per degree), quantization rounds both
coordinates to cell `(0, 0)`, whose dequantization is `(0, 0)`, yet the
haversine distance from `(0.5, 0.5)` to `(0, 0)` exceeds
`cell_km / 2 = 55.5` km: the round trip can move a corner point by
about `cell_km·√2/2`, refuting the claimed `cell_km / 2` bound. -/
theorem quantize_roundtrip_haversine_counterexample :
    (0 : ℚ) < 111 ∧
    quantize_coordinate (1/2) (1/2) 111 = (0, 0) ∧
    dequantize_coordinate 0 0 111 = (0, 0) ∧
    (111 : ℝ) / 2 < haversine_distance (1/2) (1/2) 0 0 := by
  refine ⟨by norm_num, by norm_num [quantize_coordinate, pyRound],
    by norm_num [dequantize_coordinate], ?_⟩
  have hpi := Real.pi_pos
  simp only [haversine_distance]
  push_cast
  rw [show ((0:ℝ) - 1/2) * π / 180 / 2 = -(π/720) by ring]
  rw [show ((1:ℝ)/2) * π / 180 = π/360 by ring]
  rw [show ((0:ℝ)) * π / 180 = 0 by ring]
  rw [Real.sin_neg, Real.cos_zero, neg_sq]
  set a : ℝ := sin (π/720) ^ 2 + cos (π/360) * 1 * sin (π/720) ^ 2 with ha
  have hsin0 : 0 ≤ sin (π/720) :=
    sin_nonneg_of_nonneg_of_le_pi (by positivity) (by nlinarith)
  have hcos0 : 0 ≤ cos (π/360) :=
    cos_nonneg_of_mem_Icc ⟨by nlinarith, by nlinarith⟩
  have hage : sin (π/720) ^ 2 ≤ a := by
    rw [ha]
    nlinarith [sq_nonneg (sin (π/720))]
  have h1 : sin (π/720) ≤ Real.sqrt a := by
    calc sin (π/720) = Real.sqrt (sin (π/720) ^ 2) := (Real.sqrt_sq hsin0).symm
    _ ≤ Real.sqrt a := Real.sqrt_le_sqrt hage
  have h2 : π/720 ≤ arcsin (Real.sqrt a) := by
    calc π/720 = arcsin (sin (π/720)) :=
          (Real.arcsin_sin (by nlinarith) (by nlinarith)).symm
    _ ≤ arcsin (Real.sqrt a) := Real.monotone_arcsin h1
  have hpi314 := Real.pi_gt_d2
  nlinarith

/-- C3 amended: quantizing and dequantizing moves the point by at most
`cell_km / 2` kilometers in each coordinate axis separately, under the
code's fixed 111 km/degree conversion (the combined great-circle
displacement is only bounded by about `cell_km·√2/2`, not
`cell_km / 2`). -/
theorem quantize_dequantize_axis_bound (lat lon cell_km : ℚ) (h : 0 < cell_km) :
    111 * |lat - (dequantize_coordinate (quantize_coordinate lat lon cell_km).1
      (quantize_coordinate lat lon cell_km).2 cell_km).1| ≤ cell_km / 2 ∧
    111 * |lon - (dequantize_coordinate (quantize_coordinate lat lon cell_km).1
      (quantize_coordinate lat lon cell_km).2 cell_km).2| ≤ cell_km / 2 := by
  have hδ : (0:ℚ) < cell_km / 111 := by positivity
  have key : ∀ x : ℚ,
      111 * |x - (pyRound (x / (cell_km / 111)) : ℚ) * (cell_km / 111)| ≤ cell_km / 2 := by
    intro x
    have h1 : |x / (cell_km / 111) - (pyRound (x / (cell_km / 111)) : ℚ)| ≤ 1/2 :=
      abs_sub_pyRound_le _
    have h2 : x - (pyRound (x / (cell_km / 111)) : ℚ) * (cell_km / 111) =
        (x / (cell_km / 111) - (pyRound (x / (cell_km / 111)) : ℚ)) * (cell_km / 111) := by
      field_simp
      ring
    rw [h2, abs_mul, abs_of_pos hδ]
    have h3 : |x / (cell_km / 111) - (pyRound (x / (cell_km / 111)) : ℚ)| * (cell_km / 111) ≤
        (1/2) * (cell_km / 111) :=
      mul_le_mul_of_nonneg_right h1 (le_of_lt hδ)
    nlinarith
  exact ⟨key lat, key lon⟩

/-! ## C4: total distance vs direct distance and efficiency -/

theorem haversine_nonneg (lat1 lon1 lat2 lon2 : ℚ) :
    0 ≤ haversine_distance lat1 lon1 lat2 lon2 := by
  simp only [haversine_distance]
  have h1 : 0 ≤ Real.arcsin (Real.sqrt (Real.sin ((((lat2 : ℝ) - (lat1 : ℝ)) * Real.pi / 180) / 2) ^ 2 +
      Real.cos ((lat1 : ℝ) * Real.pi / 180) * Real.cos ((lat2 : ℝ) * Real.pi / 180) *
        Real.sin ((((lon2 : ℝ) - (lon1 : ℝ)) * Real.pi / 180) / 2) ^ 2)) :=
    Real.arcsin_nonneg.mpr (Real.sqrt_nonneg _)
  nlinarith

theorem totalDistance_nonneg (l : List (ℚ × ℚ)) : 0 ≤ totalDistance l := by
  induction l with
  | nil => simp [totalDistance]
  | cons a l ih =>
    cases l with
    | nil => simp [totalDistance]
    | cons b rest =>
      rw [totalDistance]
      have := haversine_nonneg a.1 a.2 b.1 b.2
      have h2 : 0 ≤ totalDistance (b :: rest) := ih
      linarith

/-- C4 counterexample: with an everywhere-true safety oracle, the route
from `(0, 0)` to `(0, 0.25)` with 111 km cells quantizes both endpoints
to the cell `(0, 0)`, so `find_sea_route` succeeds with the single
waypoint `(0, 0)` and `total_distance = 0`, while `direct_distance`
(the haversine distance between the raw endpoints) is positive: the
claimed `total_distance ≥ direct_distance` fails. -/
theorem total_lt_direct_counterexample :
    find_sea_route (fun _ _ _ => true) 0 0 0 (1/4) 111 10 1000 =
      .success { waypoints := [(0, 0)], grid_cells := 1,
                 iterations := 1, visited_cells := 1 } ∧
    totalDistance [((0:ℚ), (0:ℚ))] = 0 ∧
    0 < directDistance 0 0 0 (1/4) ∧
    ¬ (directDistance 0 0 0 (1/4) ≤ totalDistance [((0:ℚ), (0:ℚ))]) := by
  have hpos : 0 < directDistance 0 0 0 (1/4) := by
    have hpi := Real.pi_pos
    rw [directDistance]
    simp only [haversine_distance]
    push_cast
    rw [show ((0:ℝ) - 0) * Real.pi / 180 / 2 = 0 by ring]
    rw [show ((1:ℝ)/4 - 0) * Real.pi / 180 / 2 = Real.pi/1440 by ring]
    rw [show ((0:ℝ)) * Real.pi / 180 = 0 by ring]
    rw [Real.sin_zero, Real.cos_zero]
    have hs : 0 < Real.sin (Real.pi/1440) :=
      Real.sin_pos_of_pos_of_lt_pi (by positivity) (by nlinarith)
    have ha : (0:ℝ) < 0 ^ 2 + 1 * 1 * Real.sin (Real.pi/1440) ^ 2 := by nlinarith
    have h2 : 0 < Real.arcsin
        (Real.sqrt (0 ^ 2 + 1 * 1 * Real.sin (Real.pi/1440) ^ 2)) :=
      Real.arcsin_pos.mpr (Real.sqrt_pos.mpr ha)
    nlinarith
  have hcell : quantize_coordinate 0 0 111 = quantize_coordinate 0 (1/4) 111 := by
    norm_num [quantize_coordinate, pyRound]
  have hwps := wps_same_cell (fun _ _ _ => true) 0 0 0 (1/4) 111 10 hcell
  have hfsr1 : find_sea_route (fun _ _ _ => true) 0 0 0 (1/4) 111 10 1000 =
      .success { waypoints := [dequantize_coordinate
                   (quantize_coordinate 0 (1/4) 111).1
                   (quantize_coordinate 0 (1/4) 111).2 111]
                 grid_cells := 1, iterations := 1, visited_cells := 1 } := by
    rw [find_sea_route, if_neg (by simp), if_neg (by simp), hwps]
  have hdq : dequantize_coordinate (quantize_coordinate 0 (1/4) 111).1
      (quantize_coordinate 0 (1/4) 111).2 111 = ((0:ℚ), (0:ℚ)) := by
    norm_num [quantize_coordinate, dequantize_coordinate, pyRound]
  refine ⟨?_, rfl, hpos, ?_⟩
  · rw [hfsr1, hdq]
  · rw [show totalDistance [((0:ℚ), (0:ℚ))] = 0 from rfl]
    linarith

/-- C4 amended: `find_sea_route` computes
`efficiency = direct / total × 100` when `total_distance > 0` and `0`
otherwise, so `efficiency ≤ 100` holds whenever
`total_distance ≥ direct_distance`; but quantization can make
`total_distance` smaller than `direct_distance` (see the
counterexample), in which case the reported efficiency exceeds 100. -/
theorem efficiency_le_100_when_total_ge_direct
    (safeW : ℚ → ℚ → ℚ → Bool) (slat slon elat elon step clr : ℚ) (m : ℕ)
    (r : WaveResult)
    (h : find_sea_route safeW slat slon elat elon step clr m = .success r)
    (hge : directDistance slat slon elat elon ≤ totalDistance r.waypoints) :
    efficiencyOf (directDistance slat slon elat elon)
      (totalDistance r.waypoints) ≤ 100 := by
  rw [efficiencyOf]
  split_ifs with hpos
  · have hdiv : directDistance slat slon elat elon / totalDistance r.waypoints ≤ 1 :=
      (div_le_one hpos).mpr hge
    nlinarith
  · norm_num

/-! ## C2: is_safe_water against is_land and distance -/

/-- C2: `is_safe_water` returns false whenever `is_land` reports true
(without consulting the distance), and when `is_land` reports false it
returns true exactly when `get_distance_to_land` is at least
`min_clearance_km / 111` degrees; in particular a land point is never
safe water, for any clearance. -/
theorem is_safe_water_spec (c : Checker) (lat lon clr : ℚ) :
    (c.is_land lat lon = .ok true → c.is_safe_water lat lon clr = .ok false) ∧
    (c.is_land lat lon = .ok false →
      ∀ d, c.get_distance_to_land lat lon = .ok d →
        (c.is_safe_water lat lon clr = .ok true ↔
          ((clr / 111 : ℚ) : WithTop ℚ) ≤ d)) := by
  constructor
  · intro h
    rw [Checker.is_safe_water, h]
  · intro h d hd
    rw [Checker.is_safe_water, h, hd]
    simp

/-! ## C6: the three structured failures of find_sea_route -/

/-- C6: `find_sea_route` fails only with the three structured results
`{error, waypoints := [], iterations := 0}`: the start check runs
first (its failure decides the result before any search), then the end
check, and the unreachable error arises exactly when the router
returns `None`. -/
theorem find_sea_route_errors (safeW : ℚ → ℚ → ℚ → Bool)
    (slat slon elat elon step clr : ℚ) (m : ℕ) :
    (safeW slat slon clr = false →
      find_sea_route safeW slat slon elat elon step clr m =
        .failure "Start point is not in safe water" [] 0) ∧
    (safeW slat slon clr = true → safeW elat elon clr = false →
      find_sea_route safeW slat slon elat elon step clr m =
        .failure "End point is not in safe water" [] 0) ∧
    (safeW slat slon clr = true → safeW elat elon clr = true →
      wave_propagation_search safeW slat slon elat elon step clr = none →
      find_sea_route safeW slat slon elat elon step clr m =
        .failure "No route found - destination unreachable" [] 0) ∧
    (∀ e w i, find_sea_route safeW slat slon elat elon step clr m =
        .failure e w i →
      w = [] ∧ i = 0 ∧
      ((e = "Start point is not in safe water" ∧ safeW slat slon clr = false) ∨
       (e = "End point is not in safe water" ∧ safeW slat slon clr = true ∧
         safeW elat elon clr = false) ∨
       (e = "No route found - destination unreachable" ∧
         safeW slat slon clr = true ∧ safeW elat elon clr = true ∧
         wave_propagation_search safeW slat slon elat elon step clr = none))) := by
  refine ⟨?_, ?_, ?_, ?_⟩
  · intro hs
    rw [find_sea_route, if_pos (by simp [hs])]
  · intro hs he
    rw [find_sea_route, if_neg (by simp [hs]), if_pos (by simp [he])]
  · intro hs he hw
    rw [find_sea_route, if_neg (by simp [hs]), if_neg (by simp [he]), hw]
  · intro e w i h
    rw [find_sea_route] at h
    by_cases hs : safeW slat slon clr = true
    · rw [if_neg (by simp [hs])] at h
      by_cases he : safeW elat elon clr = true
      · rw [if_neg (by simp [he])] at h
        cases hw : wave_propagation_search safeW slat slon elat elon step clr with
        | none =>
          rw [hw] at h
          injection h with h1 h2 h3
          exact ⟨h2.symm, h3.symm, Or.inr (Or.inr ⟨h1.symm, hs, he, rfl⟩)⟩
        | some r =>
          rw [hw] at h
          exact absurd h (by simp)
      · rw [if_pos (by simpa using he)] at h
        injection h with h1 h2 h3
        refine ⟨h2.symm, h3.symm, Or.inr (Or.inl ⟨h1.symm, hs, ?_⟩)⟩
        simpa using he
    · rw [if_pos (by simpa using hs)] at h
      injection h with h1 h2 h3
      refine ⟨h2.symm, h3.symm, Or.inl ⟨h1.symm, ?_⟩⟩
      simpa using hs

/-! ## C7: get_distance_to_land -/

theorem foldl_min_spec {α : Type} [LinearOrder α] (f : ℕ → α) :
    ∀ (l : List ℕ) (init : α),
    (l.foldl (fun m i => min m (f i)) init ≤ init) ∧
    (∀ i ∈ l, l.foldl (fun m i => min m (f i)) init ≤ f i) ∧
    (l.foldl (fun m i => min m (f i)) init = init ∨
      ∃ i ∈ l, l.foldl (fun m i => min m (f i)) init = f i) := by
  intro l
  induction l with
  | nil =>
    intro init
    exact ⟨le_refl _, by simp, Or.inl rfl⟩
  | cons j l ih =>
    intro init
    rw [List.foldl_cons]
    obtain ⟨ih1, ih2, ih3⟩ := ih (min init (f j))
    refine ⟨le_trans ih1 (min_le_left _ _), ?_, ?_⟩
    · intro i hi
      rcases List.mem_cons.mp hi with rfl | hi
      · exact le_trans ih1 (min_le_right _ _)
      · exact ih2 i hi
    · rcases ih3 with heq | ⟨i, hi, heq⟩
      · rcases min_choice init (f j) with hm | hm
        · exact Or.inl (heq.trans hm)
        · exact Or.inr ⟨j, List.mem_cons_self _ _, heq.trans hm⟩
      · exact Or.inr ⟨i, List.mem_cons_of_mem _ hi, heq⟩

/-- C7: `get_distance_to_land` raises `RuntimeError` when the polygon
list is empty or the spatial index is missing; otherwise it returns 0
for a contained point, queries the index with the 1-degree-radius bbox
around the point, returns `⊤` (infinity) when there are no candidates,
and otherwise returns the minimum of the distances to the candidate
polygons. -/
theorem get_distance_to_land_spec (c : Checker) (lat lon : ℚ) :
    ((c.land_polygons = [] ∨ c.spatial_index = none) →
      c.get_distance_to_land lat lon = .error .runtimeError) ∧
    (∀ idx, c.spatial_index = some idx → c.land_polygons ≠ [] →
      (c.containsPoint lat lon = true →
        c.get_distance_to_land lat lon = .ok 0) ∧
      (c.containsPoint lat lon = false →
        (idx (lon - 1, lat - 1, lon + 1, lat + 1) = [] →
          c.get_distance_to_land lat lon = .ok ⊤) ∧
        (idx (lon - 1, lat - 1, lon + 1, lat + 1) ≠ [] →
          (∀ i ∈ idx (lon - 1, lat - 1, lon + 1, lat + 1),
            i < c.land_polygons.length) →
          ∃ m : WithTop ℚ, c.get_distance_to_land lat lon = .ok m ∧
            (∀ i ∈ idx (lon - 1, lat - 1, lon + 1, lat + 1),
              m ≤ ((c.land_polygons.getD i (fun _ => 0)) (lon, lat) : WithTop ℚ)) ∧
            (∃ i ∈ idx (lon - 1, lat - 1, lon + 1, lat + 1),
              m = ((c.land_polygons.getD i (fun _ => 0)) (lon, lat) : WithTop ℚ))))) := by
  constructor
  · intro h
    rcases h with h | h
    · rw [Checker.get_distance_to_land, if_pos (by simp [h])]
    · simp only [Checker.get_distance_to_land, h]
      split_ifs <;> rfl
  · intro idx hidx hne
    have hemp : c.land_polygons.isEmpty = false := by
      simpa [List.isEmpty_iff] using hne
    constructor
    · intro hcont
      simp [Checker.get_distance_to_land, hemp, hidx, hcont]
    · intro hcont
      constructor
      · intro hcand
        simp [Checker.get_distance_to_land, hemp, hidx, hcont, hcand]
      · intro hcand hrange
        have hall : ((idx (lon - 1, lat - 1, lon + 1, lat + 1)).all
            (fun i => decide (i < c.land_polygons.length))) = true := by
          simp only [List.all_eq_true, decide_eq_true_eq]
          exact hrange
        have hgdl : c.get_distance_to_land lat lon =
            .ok ((idx (lon - 1, lat - 1, lon + 1, lat + 1)).foldl
              (fun m i => min m ((c.land_polygons.getD i (fun _ => 0)) (lon, lat)))
              ⊤) := by
          simp [Checker.get_distance_to_land, hemp, hidx, hcont, hcand, hall]
        obtain ⟨h1, h2, h3⟩ := foldl_min_spec
          (fun i => ((c.land_polygons.getD i (fun _ => 0)) (lon, lat) : WithTop ℚ))
          (idx (lon - 1, lat - 1, lon + 1, lat + 1)) ⊤
        refine ⟨_, hgdl, h2, ?_⟩
        rcases h3 with heq | hatt
        · obtain ⟨i0, hi0⟩ := List.exists_mem_of_ne_nil _ hcand
          refine ⟨i0, hi0, ?_⟩
          have := h2 i0 hi0
          rw [heq] at this ⊢
          exact (top_le_iff.mp this).symm
        · exact hatt

/-! ## C8: singleton store lifecycle -/

/-- C8 counterexample: with a Yellow Sea store already installed
(`use_yellow_sea_cache = true`, bbox = the fixed Yellow Sea bbox),
`initialize_yellow_sea_checker` - the call `find_sea_route` makes for
every in-region route - still installs a fresh instance, although the
claim says the store is replaced only when the current store is not a
Yellow Sea store, and is otherwise reused. -/
theorem yellow_sea_reinit_counterexample :
    (mkInst 0 none true).use_yellow_sea_cache = true ∧
    (mkInst 0 none true).bbox = some YELLOW_SEA_BBOX_TUPLE ∧
    (initialize_yellow_sea_checker ⟨some (mkInst 0 none true), 1⟩).1.id ≠
      (mkInst 0 none true).id ∧
    (initialize_yellow_sea_checker ⟨some (mkInst 0 none true), 1⟩).2.inst =
      some (initialize_yellow_sea_checker ⟨some (mkInst 0 none true), 1⟩).1 := by
  refine ⟨rfl, by simp [mkInst], ?_, rfl⟩
  simp [mkInst, initialize_yellow_sea_checker]

/-- C8 amended: `get_checker` installs a fresh store exactly when none
is installed yet or an explicit bbox differing from the current store's
is supplied, and reuses the installed store otherwise; but
`initialize_yellow_sea_checker` and `initialize_checker_for_route` -
and therefore the store installation performed by every `find_sea_route`
call - always replace the installed store wholesale, even when it is
already a Yellow Sea store or has the same bbox. -/
theorem checker_singleton_spec :
    (∀ bbox uys st, st.inst = none →
      (get_checker bbox uys st).2.inst = some (get_checker bbox uys st).1 ∧
      (get_checker bbox uys st).1.id = st.nextId) ∧
    (∀ bbox uys st inst, st.inst = some inst → inst.id < st.nextId →
      (((get_checker bbox uys st).1 = inst ∧ (get_checker bbox uys st).2 = st) ↔
        (bbox = none ∨ inst.bbox = bbox))) ∧
    (∀ st, (initialize_yellow_sea_checker st).1.id = st.nextId ∧
      (initialize_yellow_sea_checker st).2.inst =
        some (initialize_yellow_sea_checker st).1) ∧
    (∀ a b d e margin st,
      (initialize_checker_for_route a b d e margin st).1.id = st.nextId ∧
      (initialize_checker_for_route a b d e margin st).2.inst =
        some (initialize_checker_for_route a b d e margin st).1) ∧
    (∀ a b d e clr st, (routeCheckerInit a b d e clr st).1.id = st.nextId ∧
      (routeCheckerInit a b d e clr st).2.inst =
        some (routeCheckerInit a b d e clr st).1) := by
  refine ⟨?_, ?_, fun st => ⟨rfl, rfl⟩, fun a b d e margin st => ⟨rfl, rfl⟩, ?_⟩
  · intro bbox uys st hnone
    rw [get_checker, hnone]
    exact ⟨rfl, rfl⟩
  · intro bbox uys st inst hsome hlt
    simp only [get_checker, hsome]
    by_cases hcond : bbox ≠ none ∧ inst.bbox ≠ bbox
    · rw [if_pos hcond]
      constructor
      · rintro ⟨h1, -⟩
        have h2 : (mkInst st.nextId bbox false).id = inst.id :=
          congrArg CheckerInst.id h1
        simp only [mkInst] at h2
        omega
      · intro h
        rcases h with h | h
        · exact absurd h hcond.1
        · exact absurd h hcond.2
    · rw [if_neg hcond]
      push_neg at hcond
      constructor
      · intro _
        by_cases hb : bbox = none
        · exact Or.inl hb
        · exact Or.inr (hcond hb)
      · intro _
        exact ⟨rfl, rfl⟩
  · intro a b d e clr st
    rw [routeCheckerInit]
    split_ifs with h
    · exact ⟨rfl, rfl⟩
    · exact ⟨rfl, rfl⟩

/-! ## C10: the geocoding corroborator -/

/-- C10 counterexample: `GOOGLE_MAPS_API_KEY` set to the empty string
is a set key (`os.getenv` returns `""`, not `None`), yet the guard
`if not api_key` is true for the falsy empty string and
`checker.is_land` raises `ValueError` - refuting "raises if and only
if the variable is unset; when the key is set, it never raises". -/
theorem geocode_empty_key_counterexample :
    (some "" : Option String) ≠ none ∧
    geocode_is_land (some "") (.results []) = .error .valueError := by
  refine ⟨by simp, ?_⟩
  rw [geocode_is_land, if_pos (Or.inr rfl)]

/-- C10 amended: `checker.is_land` raises `ValueError` exactly when
`GOOGLE_MAPS_API_KEY` is unset or set to the falsy empty string; with
any non-empty key it never raises, and every API error, other
exception, or empty reverse-geocode result yields `False` (water). -/
theorem geocode_is_land_spec :
    (∀ o, geocode_is_land none o = .error .valueError) ∧
    (∀ o, geocode_is_land (some "") o = .error .valueError) ∧
    (∀ k o, k ≠ "" → ∃ b, geocode_is_land (some k) o = .ok b) ∧
    (∀ k, k ≠ "" → geocode_is_land (some k) .apiError = .ok false) ∧
    (∀ k, k ≠ "" → geocode_is_land (some k) .otherError = .ok false) ∧
    (∀ k, k ≠ "" → geocode_is_land (some k) (.results []) = .ok false) := by
  have hguard : ∀ k : String, k ≠ "" →
      ¬((some k : Option String) = none ∨ (some k : Option String) = some "") := by
    intro k hk
    simp [hk]
  refine ⟨?_, ?_, ?_, ?_, ?_, ?_⟩
  · intro o
    cases o <;> rw [geocode_is_land, if_pos (Or.inl rfl)]
  · intro o
    cases o <;> rw [geocode_is_land, if_pos (Or.inr rfl)]
  · intro k o hk
    cases o with
    | results rs =>
      by_cases h : rs = []
      · exact ⟨false, by rw [geocode_is_land, if_neg (hguard k hk), if_pos h]⟩
      · exact ⟨_, by rw [geocode_is_land, if_neg (hguard k hk), if_neg h]⟩
    | apiError => exact ⟨false, by rw [geocode_is_land, if_neg (hguard k hk)]⟩
    | otherError => exact ⟨false, by rw [geocode_is_land, if_neg (hguard k hk)]⟩
  · intro k hk
    rw [geocode_is_land, if_neg (hguard k hk)]
  · intro k hk
    rw [geocode_is_land, if_neg (hguard k hk)]
  · intro k hk
    rw [geocode_is_land, if_neg (hguard k hk), if_pos rfl]

theorem geocode_is_land_spec_witness :
    ("gm" : String) ≠ "" ∧
    geocode_is_land (some "gm") .apiError = .ok false ∧
    geocode_is_land none .apiError = .error .valueError :=
  ⟨by simp, geocode_is_land_spec.2.2.2.1 "gm" (by simp),
    geocode_is_land_spec.1 .apiError⟩

/-! ## Concrete evaluations used by the witnesses -/

theorem wps_origin : wave_propagation_search (fun _ _ _ => true) 0 0 0 0 111 10 =
    some ⟨[((0:ℚ), (0:ℚ))], 1, 1, 1⟩ := by
  have h := wps_same_cell (fun _ _ _ => true) 0 0 0 0 111 10 rfl
  rw [h]
  norm_num [quantize_coordinate, dequantize_coordinate, pyRound]

theorem fsr_origin : find_sea_route (fun _ _ _ => true) 0 0 0 0 111 10 1000 =
    .success ⟨[((0:ℚ), (0:ℚ))], 1, 1, 1⟩ := by
  rw [find_sea_route, if_neg (by simp), if_neg (by simp), wps_origin]

theorem directDistance_origin : directDistance 0 0 0 0 = 0 := by
  rw [directDistance]
  simp only [haversine_distance]
  push_cast
  rw [show ((0:ℝ) - 0) * Real.pi / 180 / 2 = 0 by ring,
    show ((0:ℝ)) * Real.pi / 180 = 0 by ring, Real.sin_zero, Real.cos_zero]
  norm_num [Real.sqrt_zero, Real.arcsin_zero]

/-! ## Witnesses -/

theorem wave_propagation_search_shortest_witness :
    (0 : ℚ) < 111 ∧
    wave_propagation_search (fun _ _ _ => true) 0 0 0 0 111 10 =
      some ⟨[((0:ℚ), (0:ℚ))], 1, 1, 1⟩ ∧
    (∃ (stf : BFSState) (pg : List Cell) (d : ℕ),
      bfsLoop (cellSafe (fun _ _ _ => true) 111 10)
        (quantize_coordinate 0 0 111) (quantize_coordinate 0 0 111)
        1000000 (initState (quantize_coordinate 0 0 111)) = some (stf, pg) ∧
      stf.distm (quantize_coordinate 0 0 111) = some d ∧
      pg.length = d + 1 ∧
      (WaveResult.mk [((0:ℚ), (0:ℚ))] 1 1 1).waypoints =
        pg.map (fun g => dequantize_coordinate g.1 g.2 111) ∧
      (WaveResult.mk [((0:ℚ), (0:ℚ))] 1 1 1).grid_cells = pg.length ∧
      RouteTo (cellSafe (fun _ _ _ => true) 111 10) (quantize_coordinate 0 0 111)
        (quantize_coordinate 0 0 111) pg ∧
      (∀ q, RouteTo (cellSafe (fun _ _ _ => true) 111 10)
        (quantize_coordinate 0 0 111) (quantize_coordinate 0 0 111) q →
        pg.length ≤ q.length)) :=
  ⟨by norm_num, wps_origin,
    wave_propagation_search_shortest (fun _ _ _ => true) 0 0 0 0 111 10
      (by norm_num) _ wps_origin⟩

theorem is_safe_water_spec_witness :
    (Checker.mk [] (some fun _ _ => true) none).is_land 0 0 = .ok true ∧
    (Checker.mk [] (some fun _ _ => true) none).is_safe_water 0 0 10 = .ok false :=
  ⟨rfl, (is_safe_water_spec (Checker.mk [] (some fun _ _ => true) none) 0 0 10).1 rfl⟩

theorem quantize_dequantize_axis_bound_witness :
    (0 : ℚ) < 10 ∧
    (111 * |(37 : ℚ) - (dequantize_coordinate
        (quantize_coordinate 37 126 10).1 (quantize_coordinate 37 126 10).2 10).1| ≤
          10 / 2 ∧
     111 * |(126 : ℚ) - (dequantize_coordinate
        (quantize_coordinate 37 126 10).1 (quantize_coordinate 37 126 10).2 10).2| ≤
          10 / 2) :=
  ⟨by norm_num, quantize_dequantize_axis_bound 37 126 10 (by norm_num)⟩

theorem efficiency_le_100_when_total_ge_direct_witness :
    find_sea_route (fun _ _ _ => true) 0 0 0 0 111 10 1000 =
      .success ⟨[((0:ℚ), (0:ℚ))], 1, 1, 1⟩ ∧
    directDistance 0 0 0 0 ≤
      totalDistance (WaveResult.mk [((0:ℚ), (0:ℚ))] 1 1 1).waypoints ∧
    efficiencyOf (directDistance 0 0 0 0)
      (totalDistance (WaveResult.mk [((0:ℚ), (0:ℚ))] 1 1 1).waypoints) ≤ 100 := by
  have hge : directDistance 0 0 0 0 ≤
      totalDistance (WaveResult.mk [((0:ℚ), (0:ℚ))] 1 1 1).waypoints := by
    rw [directDistance_origin]
    exact totalDistance_nonneg _
  exact ⟨fsr_origin, hge,
    efficiency_le_100_when_total_ge_direct (fun _ _ _ => true) 0 0 0 0 111 10 1000
      _ fsr_origin hge⟩

theorem search_iteration_cap_witness :
    wave_propagation_search (fun _ _ _ => true) 0 0 0 0 111 10 =
      some ⟨[((0:ℚ), (0:ℚ))], 1, 1, 1⟩ ∧
    (WaveResult.mk [((0:ℚ), (0:ℚ))] 1 1 1).iterations ≤ 1000000 ∧
    bfsLoop (cellSafe (fun _ _ _ => true) 111 10)
      (quantize_coordinate 0 0 111) (quantize_coordinate 0 0 111) 0
      (initState (quantize_coordinate 0 0 111)) = none ∧
    find_sea_route (fun _ _ _ => true) 0 0 0 0 111 10 5 =
      find_sea_route (fun _ _ _ => true) 0 0 0 0 111 10 777 :=
  ⟨wps_origin,
    (search_iteration_cap (fun _ _ _ => true) 0 0 0 0 111 10).1 _ wps_origin,
    (search_iteration_cap (fun _ _ _ => true) 0 0 0 0 111 10).2.1 _ 0 (Or.inr rfl),
    (search_iteration_cap (fun _ _ _ => true) 0 0 0 0 111 10).2.2 5 777⟩

theorem find_sea_route_errors_witness :
    ((fun _ _ _ => false) (0:ℚ) (0:ℚ) (10:ℚ) = false) ∧
    find_sea_route (fun _ _ _ => false) 0 0 1 1 10 10 5 =
      .failure "Start point is not in safe water" [] 0 :=
  ⟨rfl, (find_sea_route_errors (fun _ _ _ => false) 0 0 1 1 10 10 5).1 rfl⟩

theorem get_distance_to_land_spec_witness :
    ((Checker.mk [] none none).land_polygons = [] ∨
      (Checker.mk [] none none).spatial_index = none) ∧
    (Checker.mk [] none none).get_distance_to_land 0 0 = .error .runtimeError :=
  ⟨Or.inl rfl, (get_distance_to_land_spec (Checker.mk [] none none) 0 0).1 (Or.inl rfl)⟩

theorem checker_singleton_spec_witness :
    (StoreState.mk none 0).inst = none ∧
    (get_checker none false (StoreState.mk none 0)).2.inst =
      some (get_checker none false (StoreState.mk none 0)).1 ∧
    (get_checker none false (StoreState.mk none 0)).1.id =
      (StoreState.mk none 0).nextId :=
  ⟨rfl, (checker_singleton_spec.1 none false (StoreState.mk none 0) rfl).1,
    (checker_singleton_spec.1 none false (StoreState.mk none 0) rfl).2⟩

theorem same_cell_route_witness :
    (quantize_coordinate (0:ℚ) 0 111 = quantize_coordinate (0:ℚ) 0 111) ∧
    wave_propagation_search (fun _ _ _ => true) 0 0 0 0 111 10 =
      some { waypoints := [dequantize_coordinate
               (quantize_coordinate (0:ℚ) 0 111).1
               (quantize_coordinate (0:ℚ) 0 111).2 111]
             grid_cells := 1, iterations := 1, visited_cells := 1 } ∧
    find_sea_route (fun _ _ _ => true) 0 0 0 0 111 10 1000 =
      .success { waypoints := [dequantize_coordinate
                   (quantize_coordinate (0:ℚ) 0 111).1
                   (quantize_coordinate (0:ℚ) 0 111).2 111]
                 grid_cells := 1, iterations := 1, visited_cells := 1 } ∧
    efficiencyOf (directDistance 0 0 0 0)
      (totalDistance [dequantize_coordinate
        (quantize_coordinate (0:ℚ) 0 111).1
        (quantize_coordinate (0:ℚ) 0 111).2 111]) = 0 :=
  have h := same_cell_route (fun _ _ _ => true) 0 0 0 0 111 10 1000 rfl
  ⟨rfl, h.1, (h.2.2 rfl rfl).1, (h.2.2 rfl rfl).2⟩

end Maritime
